import Mathlib

/-! jproxy: a reverse proxy JSON-RPC server.

A shallow embedding of `jproxy/jproxy.go`.  The program parses its flags,
resolves two framings by name, starts a subprocess, wraps the subprocess pipes
in a JSON-RPC client, opens a listener and serves accepted connections through
a proxy.  Operating-system interaction (pipes, process start, listening) is
modelled by an environment of outcomes, and the calls the program makes are
recorded, in program order, as a list of trace events.
-/

namespace Jproxy

/-! ## Strings -/

/-- Go `strings.HasPrefix` on character lists. -/
def hasPrefixChars : List Char → List Char → Bool
  | _, [] => true
  | [], _ :: _ => false
  | c :: cs, p :: ps => c == p && hasPrefixChars cs ps

/-- Go `strings.Contains` on character lists: some suffix of `s` starts with
`substr`. -/
def containsChars : List Char → List Char → Bool
  | [], substr => hasPrefixChars [] substr
  | c :: cs, substr => hasPrefixChars (c :: cs) substr || containsChars cs substr

/-- Go `strings.Contains(s, substr)`. -/
def stringsContains (s substr : String) : Bool :=
  containsChars s.data substr.data

/-! ## Flags (jproxy.go lines 24-28) -/

/-- A parsed command line: every flag as given (`none` when the flag does not
occur) and the positional arguments left after the flags. -/
structure CommandLine where
  addressFlag : Option String
  cfFlag : Option String
  sfFlag : Option String
  vFlag : Option Bool
  positional : List String
  deriving DecidableEq, Repr

/-- The value of `flag.String("address", "", ...)`. -/
def address (cl : CommandLine) : String := cl.addressFlag.getD ""

/-- The value of `flag.String("cf", "raw", ...)`. -/
def clientFraming (cl : CommandLine) : String := cl.cfFlag.getD "raw"

/-- The value of `flag.String("sf", "raw", ...)`. -/
def serverFraming (cl : CommandLine) : String := cl.sfFlag.getD "raw"

/-- The value of `flag.Bool("v", false, ...)`. -/
def doVerbose (cl : CommandLine) : Bool := cl.vFlag.getD false

/-- Go `flag.NArg()`. -/
def flagNArg (cl : CommandLine) : Nat := cl.positional.length

/-- Go `flag.Arg(i)`: the i-th positional argument, or the empty string. -/
def flagArg (cl : CommandLine) (i : Nat) : String := cl.positional.getD i ""

/-- Go `flag.Args()`. -/
def flagArgs (cl : CommandLine) : List String := cl.positional

/-! ## Environment and trace -/

/-- The two pipes of the subprocess. -/
inductive Pipe
  | stdin
  | stdout
  deriving DecidableEq, Repr

/-- Outcomes of the operating-system calls made by `run`: `none` is a nil
error, `some e` the error text. -/
structure Env where
  stdinPipe : Option String
  stdoutPipe : Option String
  start : Option String
  listen : String → String → Option String

/-- The calls made by the program, in program order.  `F` is the type of
channel framings. -/
inductive Event (F : Type)
  | newLogger
  | framingLookup (name : String)
  | signalNotify
  | enterRun (cframe sframe : F)
  | commandContext (name : String) (args : List String)
  | stdinPipe
  | stdoutPipe
  | procStart
  | proxyNew (framing : F) (reader writer : Pipe)
  | netListen (kind addr : String)
  | serverLoop (framing : F) (concurrency : Nat) (disableBuiltin : Bool)
  | pcClose
  | cancel
  deriving DecidableEq, Repr

/-- The errors `run` builds with `fmt.Errorf` (lines 92, 96, 98, 116). -/
inductive RunError
  | stdin (err : String)
  | stdout (err : String)
  | start (err : String)
  | listen (kind addr err : String)
  deriving DecidableEq, Repr

/-- How a call of `run` ends: it returns an error value (`none` is nil), or it
panics. -/
inductive RunResult
  | returned (err : Option RunError)
  | panicked
  deriving DecidableEq, Repr

/-- The fatal log calls of `main` (lines 53, 55, 63, 67, 80); each exits the
process with a nonzero status. -/
inductive Fatal
  | msg (text : String)
  | unknownClientFraming (name : String)
  | unknownServerFraming (name : String)
  | runError (err : RunError)
  deriving DecidableEq, Repr

/-- How `main` ends. -/
inductive MainResult
  | fatal (f : Fatal)
  | exited
  | panicked
  deriving DecidableEq, Repr

/-! ## `run` and `main` -/

/-- The value of `Concurrency` in the server options (line 126). -/
def concurrency : Nat := 8

/-- The listener kind chosen at lines 110-113. -/
def listenKind (addr : String) : String :=
  if !stringsContains addr ":" then "unix" else "tcp"

/-- The function `run` of jproxy.go (lines 84-132).  Deferred calls
(`pc.Close`, `cancel`) are recorded when the function leaves. -/
def run {F : Type} (env : Env) (cl : CommandLine) (cframe sframe : F) :
    List (Event F) × RunResult :=
  if (flagArgs cl).length < 1 then
    -- `flag.Args()[1:]` on an empty slice
    ([.cancel], .panicked)
  else
    let t0 : List (Event F) :=
      [.commandContext (flagArg cl 0) ((flagArgs cl).drop 1), .stdinPipe]
    match env.stdinPipe with
    | some e => (t0 ++ [.cancel], .returned (some (.stdin e)))
    | none =>
      let t1 := t0 ++ [.stdoutPipe]
      match env.stdoutPipe with
      | some e => (t1 ++ [.cancel], .returned (some (.stdout e)))
      | none =>
        let t2 := t1 ++ [.procStart]
        match env.start with
        | some e => (t2 ++ [.cancel], .returned (some (.start e)))
        | none =>
          let t3 := t2 ++ [.proxyNew sframe Pipe.stdout Pipe.stdin]
          let addr := address cl
          let kind := listenKind addr
          let t4 := t3 ++ [.netListen kind addr]
          match env.listen kind addr with
          | some e =>
            (t4 ++ [.pcClose, .cancel], .returned (some (.listen kind addr e)))
          | none =>
            (t4 ++ [.serverLoop cframe concurrency true, .pcClose, .cancel], .returned none)

/-- The function `main` of jproxy.go (lines 50-82).  `lookup` stands for
`chanutil.Framing`: the framing registered under a name, `none` for nil. -/
def main {F : Type} (lookup : String → Option F) (env : Env) (cl : CommandLine) :
    List (Event F) × MainResult :=
  if flagNArg cl = 0 then
    ([], .fatal (.msg "You must provide a command to execute"))
  else if address cl = "" then
    ([], .fatal (.msg "You must provide an -address to listen on"))
  else
    let t0 : List (Event F) := if doVerbose cl then [.newLogger] else []
    let t1 := t0 ++ [.framingLookup (clientFraming cl)]
    match lookup (clientFraming cl) with
    | none => (t1, .fatal (.unknownClientFraming (clientFraming cl)))
    | some cframe =>
      let t2 := t1 ++ [.framingLookup (serverFraming cl)]
      match lookup (serverFraming cl) with
      | none => (t2, .fatal (.unknownServerFraming (serverFraming cl)))
      | some sframe =>
        let t3 := t2 ++ [.signalNotify, .enterRun cframe sframe]
        match run env cl cframe sframe with
        | (t, .returned (some err)) => (t3 ++ t, .fatal (.runError err))
        | (t, .returned none) => (t3 ++ t, .exited)
        | (t, .panicked) => (t3 ++ t, .panicked)

/-! ## Lifecycle: contexts, shutdown triggers and the listener

The goroutines of `main` and `run` as a step function.  Each event is the
sequential body of one goroutine (or one blocking call of `run`), so events of
different goroutines interleave freely. -/

/-- The listener `lst` of line 114. -/
inductive ListenerState
  | unopened
  | opened
  | closed
  deriving DecidableEq, Repr

/-- Lifecycle state.  `mainCancelled` is the context made at line 70;
`runCancelled` is the context made at line 85, a child of the former, to which
the subprocess (line 89) is bound and on which the closer (line 119) waits. -/
structure Life where
  mainCancelled : Bool
  runCancelled : Bool
  procStarted : Bool
  procExited : Bool
  listener : ListenerState
  accepted : Nat
  runReturned : Bool
  deriving DecidableEq, Repr

/-- The steps of the lifecycle. -/
inductive LifeEvent
  /-- Lines 73-77: the signal goroutine receives the interrupt and calls the
  `cancel` of line 70. -/
  | interrupt
  /-- Line 97: `proc.Start` succeeded. -/
  | procStart
  /-- Lines 100-103: `proc.Wait` returned and the goroutine calls `cancel`. -/
  | procExit
  /-- Line 114: `net.Listen` succeeded. -/
  | listen
  /-- Lines 118-121: the goroutine saw `ctx.Done` and calls `lst.Close`. -/
  | closer
  /-- Line 123: the accept loop takes one connection from the listener. -/
  | accept
  /-- Lines 123-131: the accept loop ends, `run` returns nil. -/
  | loopEnd
  /-- Lines 92, 96, 98, 116: `run` returns an error before serving. -/
  | setupFail
  deriving DecidableEq, Repr

/-- The state in which `main` calls `run`. -/
def lifeInit : Life :=
  { mainCancelled := false, runCancelled := false, procStarted := false,
    procExited := false, listener := .unopened, accepted := 0,
    runReturned := false }

/-- One step; `none` when the event cannot happen in the state.  Cancelling
the context of `main` cancels its child, the context of `run`; the deferred
`cancel` of line 86 runs when `run` returns. -/
def lifeStep (s : Life) : LifeEvent → Option Life
  | .interrupt =>
    if s.runReturned || s.mainCancelled then none
    else some { s with mainCancelled := true, runCancelled := true }
  | .procStart =>
    if s.runReturned || s.procStarted then none
    else some { s with procStarted := true }
  | .procExit =>
    if s.runReturned || !s.procStarted || s.procExited then none
    else some { s with procExited := true, runCancelled := true }
  | .listen =>
    if s.runReturned || !s.procStarted || s.listener != .unopened then none
    else some { s with listener := .opened }
  | .closer =>
    if s.runReturned || !s.runCancelled || s.listener != .opened then none
    else some { s with listener := .closed }
  | .accept =>
    if s.runReturned || s.listener != .opened then none
    else some { s with accepted := s.accepted + 1 }
  | .loopEnd =>
    if s.runReturned || s.listener == .unopened then none
    else some { s with runReturned := true, runCancelled := true }
  | .setupFail =>
    if s.runReturned || s.listener != .unopened then none
    else some { s with runReturned := true, runCancelled := true }

/-- A sequence of steps. -/
def lifeRun (s : Life) : List LifeEvent → Option Life
  | [] => some s
  | e :: es =>
    match lifeStep s e with
    | none => none
    | some s' => lifeRun s' es

/-! ## The multiplexer -/

/-- Modelled from the spec: the PendingCall record of the proxy package, which
is not among the sources (spec section 3): the backend id, the originating
session and the client-local id of a forwarded request. -/
structure PendingCall where
  backendID : Nat
  session : Nat
  clientID : Nat
  deriving DecidableEq, Repr

/-- Modelled from the spec: the state of the Multiplexer of the proxy package,
which is not among the sources (spec sections 4.1, 4.2, 4.4 and 6): the
admission limit, the monotonically increasing counter, the ID Translation
Table and whether the backend connection is alive. -/
structure Mux where
  limit : Nat
  counter : Nat
  table : List PendingCall
  alive : Bool
  deriving DecidableEq, Repr

/-- Modelled from the spec: `allocate` of the ID Translation Table (section
4.1), missing from the sources: the backend id is the counter, which is then
incremented. -/
def allocate (m : Mux) (session clientID : Nat) : Nat × Mux :=
  (m.counter,
    { m with counter := m.counter + 1,
             table := ⟨m.counter, session, clientID⟩ :: m.table })

/-- Modelled from the spec: `resolve` of the ID Translation Table (section
4.1), missing from the sources: looks the backend id up and removes the
entry. -/
def resolve (m : Mux) (backendID : Nat) : Option PendingCall × Mux :=
  (m.table.find? (fun p => p.backendID == backendID),
    { m with table := m.table.filter (fun p => p.backendID != backendID) })

/-- Modelled from the spec: `purge` of the ID Translation Table (section 4.1),
missing from the sources: removes and returns the entries of a session. -/
def purge (m : Mux) (session : Nat) : List PendingCall × Mux :=
  (m.table.filter (fun p => p.session == session),
    { m with table := m.table.filter (fun p => p.session != session) })

/-- What happens at the multiplexer. -/
inductive MuxEvent
  | request (session clientID : Nat)
  | notify (session : Nat)
  | response (backendID : Nat)
  | disconnect (session : Nat)
  | backendDown
  deriving DecidableEq, Repr

/-- What the multiplexer emits: a request sent to the backend under a backend
id (with its origin), a notification passed on, a response delivered to a
session under a client-local id (with the backend id it answers), and the
error and drop cases. -/
inductive MuxOutput
  | sent (backendID session clientID : Nat)
  | notified (session : Nat)
  | delivered (session clientID backendID : Nat)
  | invalidRequest (session clientID : Nat)
  | unavailable (session clientID : Nat)
  | dropped (backendID : Nat)
  deriving DecidableEq, Repr

/-- Modelled from the spec: one step of the Multiplexer of the proxy package,
missing from the sources (sections 4.2-4.5, 6 and 7).  A request with an
in-flight client-local id of its session is rejected; a request to a dead
backend fails; a request at a full admission gate waits (`none`: the event
cannot happen yet); otherwise it is allocated a backend id and sent.  A
response resolves its entry and is delivered to the recorded session under
the recorded id, or is dropped when the id is unknown.  A disconnect purges
the session.  When the backend goes down every pending call fails. -/
def muxStep (m : Mux) : MuxEvent → Option (Mux × List MuxOutput)
  | .request s c =>
    if m.table.any (fun p => p.session == s && p.clientID == c) then
      some (m, [.invalidRequest s c])
    else if !m.alive then some (m, [.unavailable s c])
    else if m.limit ≤ m.table.length then none
    else some ((allocate m s c).2, [.sent (allocate m s c).1 s c])
  | .notify s => if m.alive then some (m, [.notified s]) else some (m, [])
  | .response b =>
    if !m.alive then none
    else
      match (resolve m b).1 with
      | some p => some ((resolve m b).2, [.delivered p.session p.clientID b])
      | none => some ((resolve m b).2, [.dropped b])
  | .disconnect s => some ((purge m s).2, [])
  | .backendDown =>
    if !m.alive then none
    else
      some ({ m with alive := false, table := [] },
        m.table.map (fun p => MuxOutput.unavailable p.session p.clientID))

/-- A sequence of multiplexer steps with the outputs in order. -/
def muxRun (m : Mux) : List MuxEvent → Option (Mux × List MuxOutput)
  | [] => some (m, [])
  | e :: es =>
    match muxStep m e with
    | none => none
    | some (m', o) =>
      match muxRun m' es with
      | none => none
      | some (m'', os) => some (m'', o ++ os)

/-- The multiplexer when the proxy starts serving. -/
def muxInit (limit : Nat) : Mux :=
  { limit := limit, counter := 0, table := [], alive := true }

/-! ## Auxiliary definitions for the proofs -/

/-- The events of `main` before the framings are looked up. -/
def verboseTrace {F : Type} (cl : CommandLine) : List (Event F) :=
  if doVerbose cl then [.newLogger] else []

/-- A command line used to exercise the theorems: `jproxy -address :8080 cat -u`. -/
def sampleCommandLine : CommandLine :=
  { addressFlag := some ":8080", cfFlag := none, sfFlag := none, vFlag := none,
    positional := ["cat", "-u"] }

/-- An environment in which every operating-system call succeeds. -/
def sampleEnv : Env :=
  { stdinPipe := none, stdoutPipe := none, start := none, listen := fun _ _ => none }

/-- A framing table that knows `raw` and `line`. -/
def sampleLookup (name : String) : Option Nat :=
  if name = "raw" then some 0 else if name = "line" then some 1 else none

/-- A multiplexer state with three pending calls of two sessions. -/
def samplePending : Mux :=
  { limit := 8, counter := 3, alive := true,
    table := [⟨2, 10, 2⟩, ⟨1, 20, 1⟩, ⟨0, 10, 1⟩] }

/-- The invariant of the multiplexer together with the outputs emitted so far:
every pending call was sent under its backend id, every backend id sent is
below the counter and was sent once, every delivery answers a request sent
for that session and client-local id, the pending backend ids are distinct,
and the pending calls fit the admission limit. -/
structure MuxInv (m : Mux) (outs : List MuxOutput) : Prop where
  table_sent : ∀ p ∈ m.table, MuxOutput.sent p.backendID p.session p.clientID ∈ outs
  sent_lt : ∀ b s c, MuxOutput.sent b s c ∈ outs → b < m.counter
  sent_unique : ∀ b s c s' c', MuxOutput.sent b s c ∈ outs →
    MuxOutput.sent b s' c' ∈ outs → s' = s ∧ c' = c
  delivered_sent : ∀ s c b, MuxOutput.delivered s c b ∈ outs →
    MuxOutput.sent b s c ∈ outs
  nodup : (m.table.map (fun p => p.backendID)).Nodup
  bounded : m.table.length ≤ m.limit

/-! # Theorems -/

/-! ## Strings: facts -/

theorem hasPrefixChars_singleton (s : List Char) (c : Char) :
    hasPrefixChars s [c] = true ↔ s.head? = some c := by
  cases s with
  | nil => simp [hasPrefixChars]
  | cons d ds => simp [hasPrefixChars]

theorem containsChars_singleton (s : List Char) (c : Char) :
    containsChars s [c] = true ↔ c ∈ s := by
  induction s with
  | nil => simp [containsChars, hasPrefixChars]
  | cons d ds ih =>
    simp only [containsChars, Bool.or_eq_true, ih, hasPrefixChars_singleton]
    simp only [List.head?_cons, Option.some.injEq, List.mem_cons]
    constructor
    · rintro (h | h)
      · exact Or.inl h.symm
      · exact Or.inr h
    · rintro (h | h)
      · exact Or.inl h.symm
      · exact Or.inr h

theorem stringsContains_colon (s : String) :
    stringsContains s ":" = true ↔ ':' ∈ s.data := by
  unfold stringsContains
  exact containsChars_singleton s.data ':'

theorem listenKind_tcp_iff (addr : String) :
    listenKind addr = "tcp" ↔ ':' ∈ addr.data := by
  unfold listenKind
  rw [← stringsContains_colon]
  cases stringsContains addr ":" <;> simp

theorem listenKind_unix_iff (addr : String) :
    listenKind addr = "unix" ↔ ':' ∉ addr.data := by
  unfold listenKind
  rw [← stringsContains_colon]
  cases stringsContains addr ":" <;> simp

/-! ## `run`: the shape of its trace -/

/-- The trace and result of `run` with a command, by the first failing step. -/
theorem run_cons {F : Type} (env : Env) (cl : CommandLine) (cframe sframe : F)
    (cmd : String) (rest : List String) (h : cl.positional = cmd :: rest) :
    run env cl cframe sframe =
      match env.stdinPipe, env.stdoutPipe, env.start,
          env.listen (listenKind (address cl)) (address cl) with
      | some e, _, _, _ =>
        ([.commandContext cmd rest, .stdinPipe, .cancel], .returned (some (.stdin e)))
      | none, some e, _, _ =>
        ([.commandContext cmd rest, .stdinPipe, .stdoutPipe, .cancel],
          .returned (some (.stdout e)))
      | none, none, some e, _ =>
        ([.commandContext cmd rest, .stdinPipe, .stdoutPipe, .procStart, .cancel],
          .returned (some (.start e)))
      | none, none, none, some e =>
        ([.commandContext cmd rest, .stdinPipe, .stdoutPipe, .procStart,
          .proxyNew sframe Pipe.stdout Pipe.stdin,
          .netListen (listenKind (address cl)) (address cl), .pcClose, .cancel],
          .returned (some (.listen (listenKind (address cl)) (address cl) e)))
      | none, none, none, none =>
        ([.commandContext cmd rest, .stdinPipe, .stdoutPipe, .procStart,
          .proxyNew sframe Pipe.stdout Pipe.stdin,
          .netListen (listenKind (address cl)) (address cl),
          .serverLoop cframe concurrency true, .pcClose, .cancel],
          .returned none) := by
  unfold run
  simp only [flagArgs, flagArg, h, List.length_cons, List.getD_cons_zero, List.drop_succ_cons,
    List.drop_zero]
  rcases h1 : env.stdinPipe with _ | e1
  · rcases h2 : env.stdoutPipe with _ | e2
    · rcases h3 : env.start with _ | e3
      · rcases h4 : env.listen (listenKind (address cl)) (address cl) with _ | e4
        · simp [h4]
        · simp [h4]
      · simp
    · simp
  · simp

theorem run_nil {F : Type} (env : Env) (cl : CommandLine) (cframe sframe : F)
    (h : cl.positional = []) :
    run env cl cframe sframe = ([.cancel], .panicked) := by
  unfold run
  simp [flagArgs, h]

/-! ## `main`: the shape of its trace -/

theorem main_no_command {F : Type} (lookup : String → Option F) (env : Env)
    (cl : CommandLine) (h : cl.positional = []) :
    main lookup env cl = ([], .fatal (.msg "You must provide a command to execute")) := by
  unfold main
  simp [flagNArg, h]

theorem main_no_address {F : Type} (lookup : String → Option F) (env : Env)
    (cl : CommandLine) (h : cl.positional ≠ []) (ha : address cl = "") :
    main lookup env cl = ([], .fatal (.msg "You must provide an -address to listen on")) := by
  unfold main
  have : flagNArg cl ≠ 0 := by simpa [flagNArg] using h
  simp [this, ha]

theorem main_unknown_cf {F : Type} (lookup : String → Option F) (env : Env)
    (cl : CommandLine) (h : cl.positional ≠ []) (ha : address cl ≠ "")
    (hc : lookup (clientFraming cl) = none) :
    main lookup env cl =
      (verboseTrace cl ++ [.framingLookup (clientFraming cl)],
        .fatal (.unknownClientFraming (clientFraming cl))) := by
  unfold main
  have : flagNArg cl ≠ 0 := by simpa [flagNArg] using h
  simp [this, ha, hc, verboseTrace]

theorem main_unknown_sf {F : Type} (lookup : String → Option F) (env : Env)
    (cl : CommandLine) (h : cl.positional ≠ []) (ha : address cl ≠ "") (c : F)
    (hc : lookup (clientFraming cl) = some c)
    (hs : lookup (serverFraming cl) = none) :
    main lookup env cl =
      (verboseTrace cl ++
        [.framingLookup (clientFraming cl), .framingLookup (serverFraming cl)],
        .fatal (.unknownServerFraming (serverFraming cl))) := by
  unfold main
  have : flagNArg cl ≠ 0 := by simpa [flagNArg] using h
  simp [this, ha, hc, hs, verboseTrace]

theorem main_trace_run {F : Type} (lookup : String → Option F) (env : Env)
    (cl : CommandLine) (h : cl.positional ≠ []) (ha : address cl ≠ "") (c s : F)
    (hc : lookup (clientFraming cl) = some c)
    (hs : lookup (serverFraming cl) = some s) :
    (main lookup env cl).1 =
      verboseTrace cl ++
        [.framingLookup (clientFraming cl), .framingLookup (serverFraming cl),
          .signalNotify, .enterRun c s] ++ (run env cl c s).1 := by
  unfold main
  have : flagNArg cl ≠ 0 := by simpa [flagNArg] using h
  simp only [this, ha, hc, hs, if_false, verboseTrace]
  rcases hr : run env cl c s with ⟨t, r⟩
  rcases r with (_ | e) | _ <;> simp

theorem main_result_run {F : Type} (lookup : String → Option F) (env : Env)
    (cl : CommandLine) (h : cl.positional ≠ []) (ha : address cl ≠ "") (c s : F)
    (hc : lookup (clientFraming cl) = some c)
    (hs : lookup (serverFraming cl) = some s) :
    (main lookup env cl).2 =
      match (run env cl c s).2 with
      | .returned (some err) => .fatal (.runError err)
      | .returned none => .exited
      | .panicked => .panicked := by
  unfold main
  have : flagNArg cl ≠ 0 := by simpa [flagNArg] using h
  simp only [this, ha, hc, hs, if_false]
  rcases hr : run env cl c s with ⟨t, r⟩
  rcases r with (_ | e) | _ <;> simp

theorem mem_verboseTrace {F : Type} (cl : CommandLine) (ev : Event F)
    (h : ev ∈ verboseTrace cl) : ev = .newLogger := by
  unfold verboseTrace at h
  split at h <;> simp at h
  exact h

/-- Every event of `run` with a command is one of nine calls. -/
theorem mem_run_cons {F : Type} (env : Env) (cl : CommandLine) (cframe sframe : F)
    (cmd : String) (rest : List String) (h : cl.positional = cmd :: rest)
    (ev : Event F) (hev : ev ∈ (run env cl cframe sframe).1) :
    ev = .commandContext cmd rest ∨ ev = .stdinPipe ∨ ev = .stdoutPipe ∨
      ev = .procStart ∨
      (ev = .proxyNew sframe Pipe.stdout Pipe.stdin ∧ env.stdinPipe = none ∧
        env.stdoutPipe = none ∧ env.start = none) ∨
      (ev = .netListen (listenKind (address cl)) (address cl) ∧ env.stdinPipe = none ∧
        env.stdoutPipe = none ∧ env.start = none) ∨
      (ev = .serverLoop cframe concurrency true ∧ env.stdinPipe = none ∧
        env.stdoutPipe = none ∧ env.start = none ∧
        env.listen (listenKind (address cl)) (address cl) = none) ∨
      ev = .pcClose ∨ ev = .cancel := by
  rw [run_cons env cl cframe sframe cmd rest h] at hev
  rcases h1 : env.stdinPipe with _ | e1 <;>
  rcases h2 : env.stdoutPipe with _ | e2 <;>
  rcases h3 : env.start with _ | e3 <;>
  rcases h4 : env.listen (listenKind (address cl)) (address cl) with _ | e4 <;>
  simp only [h1, h2, h3, h4] at hev <;>
  simp at hev <;>
  rcases hev with h | h | h | h | h | h | h | h | h <;> simp [h]

/-! ## Claims about `main` and `run` -/

/-- C3: every `net.Listen` call of `run` gets the configured address unchanged,
with kind "tcp" exactly when the address contains a colon and kind "unix"
exactly when it does not; and `run` does make that call once the subprocess
has been started. -/
theorem run_listen_kind_by_colon {F : Type} (env : Env) (cl : CommandLine)
    (cframe sframe : F) :
    (∀ kind addr, Event.netListen kind addr ∈ (run env cl cframe sframe).1 →
      addr = address cl ∧ (kind = "tcp" ↔ stringsContains (address cl) ":" = true) ∧
        (kind = "unix" ↔ ¬ stringsContains (address cl) ":" = true) ∧
        (stringsContains (address cl) ":" = true ↔ ':' ∈ (address cl).data)) ∧
    (cl.positional ≠ [] → env.stdinPipe = none → env.stdoutPipe = none →
      env.start = none →
      Event.netListen (listenKind (address cl)) (address cl) ∈
        (run env cl cframe sframe).1) := by
  constructor
  · intro kind addr hmem
    rcases hp : cl.positional with _ | ⟨cmd, rest⟩
    · rw [run_nil env cl cframe sframe hp] at hmem
      simp at hmem
    · have h := mem_run_cons env cl cframe sframe cmd rest hp _ hmem
      simp only [Event.netListen.injEq, false_or, reduceCtorEq, false_and, or_false] at h
      obtain ⟨⟨hk, ha⟩, -⟩ := h
      subst hk ha
      refine ⟨rfl, ?_, ?_, stringsContains_colon _⟩
      · rw [stringsContains_colon]
        exact listenKind_tcp_iff _
      · rw [stringsContains_colon]
        exact listenKind_unix_iff _
  · intro hp h1 h2 h3
    rcases hq : cl.positional with _ | ⟨cmd, rest⟩
    · exact absurd hq hp
    · rw [run_cons env cl cframe sframe cmd rest hq, h1, h2, h3]
      rcases env.listen (listenKind (address cl)) (address cl) with _ | e <;> simp

theorem run_listen_kind_by_colon_witness :
    Event.netListen "tcp" ":8080" ∈ (run sampleEnv sampleCommandLine 0 0).1 ∧
      (":8080" = address sampleCommandLine ∧
        ("tcp" = "tcp" ↔ stringsContains (address sampleCommandLine) ":" = true) ∧
        ("tcp" = "unix" ↔ ¬ stringsContains (address sampleCommandLine) ":" = true) ∧
        (stringsContains (address sampleCommandLine) ":" = true ↔
          ':' ∈ (address sampleCommandLine).data)) :=
  ⟨by decide,
    (run_listen_kind_by_colon sampleEnv sampleCommandLine 0 0).1 "tcp" ":8080" (by decide)⟩

/-- C10: with no positional argument `main` fails fatally with the
missing-command message, whatever the address; with a command and an empty
address it fails fatally with the missing-address message; and the trace of
`main` holds a framing lookup or the call of `run` only if a command is given
and the address is non-empty (in which case the client framing is looked
up). -/
theorem main_checks_command_then_address {F : Type} (lookup : String → Option F)
    (env : Env) (cl : CommandLine) :
    (cl.positional = [] →
      main lookup env cl = ([], .fatal (.msg "You must provide a command to execute"))) ∧
    (cl.positional ≠ [] → address cl = "" →
      main lookup env cl =
        ([], .fatal (.msg "You must provide an -address to listen on"))) ∧
    (∀ ev ∈ (main lookup env cl).1,
      ((∃ n, ev = .framingLookup n) ∨ (∃ c s, ev = .enterRun c s)) →
        cl.positional ≠ [] ∧ address cl ≠ "") ∧
    (cl.positional ≠ [] → address cl ≠ "" →
      Event.framingLookup (clientFraming cl) ∈ (main lookup env cl).1) := by
  refine ⟨main_no_command lookup env cl, main_no_address lookup env cl, ?_, ?_⟩
  · intro ev hev _
    by_cases hp : cl.positional = []
    · rw [main_no_command lookup env cl hp] at hev
      simp at hev
    · by_cases ha : address cl = ""
      · rw [main_no_address lookup env cl hp ha] at hev
        simp at hev
      · exact ⟨hp, ha⟩
  · intro hp ha
    rcases hc : lookup (clientFraming cl) with _ | c
    · rw [main_unknown_cf lookup env cl hp ha hc]
      simp
    · rcases hs : lookup (serverFraming cl) with _ | s
      · rw [main_unknown_sf lookup env cl hp ha c hc hs]
        simp
      · rw [main_trace_run lookup env cl hp ha c s hc hs]
        simp

theorem main_checks_command_then_address_witness :
    main sampleLookup sampleEnv { sampleCommandLine with positional := [] } =
        ([], .fatal (.msg "You must provide a command to execute")) ∧
      main sampleLookup sampleEnv { sampleCommandLine with addressFlag := none } =
        ([], .fatal (.msg "You must provide an -address to listen on")) ∧
      Event.framingLookup "raw" ∈ (main sampleLookup sampleEnv sampleCommandLine).1 :=
  ⟨(main_checks_command_then_address sampleLookup sampleEnv
      { sampleCommandLine with positional := [] }).1 rfl,
    (main_checks_command_then_address sampleLookup sampleEnv
      { sampleCommandLine with addressFlag := none }).2.1 (by decide) (by decide),
    (main_checks_command_then_address sampleLookup sampleEnv sampleCommandLine).2.2.2
      (by decide) (by decide)⟩

/-- C4: when the name given by -cf or the name given by -sf is not a known
framing, `main` ends fatally and its trace holds nothing but the logger setup
and framing lookups, so `run` is not called, no subprocess is started and no
listener is opened; and whenever `run` is called, both names resolved to the
framings it is called with. -/
theorem main_unknown_framing_is_fatal {F : Type} (lookup : String → Option F)
    (env : Env) (cl : CommandLine) :
    (lookup (clientFraming cl) = none ∨ lookup (serverFraming cl) = none →
      (∃ f, (main lookup env cl).2 = .fatal f) ∧
        ∀ ev ∈ (main lookup env cl).1, ev = .newLogger ∨ ∃ n, ev = .framingLookup n) ∧
    (∀ c s, Event.enterRun c s ∈ (main lookup env cl).1 →
      lookup (clientFraming cl) = some c ∧ lookup (serverFraming cl) = some s) := by
  by_cases hp : cl.positional = []
  · rw [main_no_command lookup env cl hp]
    simp
  by_cases ha : address cl = ""
  · rw [main_no_address lookup env cl hp ha]
    simp
  rcases hc : lookup (clientFraming cl) with _ | c
  · rw [main_unknown_cf lookup env cl hp ha hc]
    refine ⟨fun _ => ⟨⟨_, rfl⟩, ?_⟩, ?_⟩
    · intro ev hev
      simp only [List.mem_append, List.mem_singleton] at hev
      rcases hev with h | h
      · exact Or.inl (mem_verboseTrace cl ev h)
      · exact Or.inr ⟨_, h⟩
    · intro c s hmem
      simp only [List.mem_append, List.mem_singleton, reduceCtorEq, or_false] at hmem
      have := mem_verboseTrace cl _ hmem
      simp at this
  rcases hs : lookup (serverFraming cl) with _ | s
  · rw [main_unknown_sf lookup env cl hp ha c hc hs]
    refine ⟨fun _ => ⟨⟨_, rfl⟩, ?_⟩, ?_⟩
    · intro ev hev
      simp only [List.mem_append, List.mem_cons, List.mem_singleton, List.mem_nil_iff,
        or_false] at hev
      rcases hev with h | h | h
      · exact Or.inl (mem_verboseTrace cl ev h)
      · exact Or.inr ⟨_, h⟩
      · exact Or.inr ⟨_, h⟩
    · intro c' s' hmem
      simp only [List.mem_append, List.mem_cons, List.mem_singleton, List.mem_nil_iff,
        reduceCtorEq, or_false] at hmem
      have := mem_verboseTrace cl _ hmem
      simp at this
  · refine ⟨fun h => by simp at h, ?_⟩
    intro c' s' hmem
    rw [main_trace_run lookup env cl hp ha c s hc hs] at hmem
    simp only [List.mem_append, List.mem_cons, List.mem_singleton, List.mem_nil_iff,
      reduceCtorEq, false_or, or_false, Event.enterRun.injEq] at hmem
    rcases hmem with (h | h) | h
    · have := mem_verboseTrace cl _ h
      simp at this
    · rw [h.1, h.2]
      exact ⟨rfl, rfl⟩
    · rcases hq : cl.positional with _ | ⟨cmd, rest⟩
      · exact absurd hq hp
      · have := mem_run_cons env cl c s cmd rest hq _ h
        simp at this

theorem main_unknown_framing_is_fatal_witness :
    (∃ f, (main sampleLookup sampleEnv
        { sampleCommandLine with cfFlag := some "bogus" }).2 = .fatal f) ∧
      ∀ ev ∈ (main sampleLookup sampleEnv
          { sampleCommandLine with cfFlag := some "bogus" }).1,
        ev = .newLogger ∨ ∃ n, ev = .framingLookup n :=
  (main_unknown_framing_is_fatal sampleLookup sampleEnv
    { sampleCommandLine with cfFlag := some "bogus" }).1 (Or.inl (by decide))

/-- C8: with positional arguments `cmd :: rest`, the first call of `run` builds
the subprocess from command `cmd` and argument vector `rest` (in order), no
other command is ever built, the backend channel is only ever built on the
subprocess's standard output as reader and standard input as writer, and when
the pipes and the start succeed the subprocess is started and that channel is
built. -/
theorem run_launches_command {F : Type} (env : Env) (cl : CommandLine)
    (cframe sframe : F) (cmd : String) (rest : List String)
    (h : cl.positional = cmd :: rest) :
    (run env cl cframe sframe).1.head? = some (.commandContext cmd rest) ∧
    (∀ n a, Event.commandContext n a ∈ (run env cl cframe sframe).1 →
      n = cmd ∧ a = rest) ∧
    (∀ f r w, Event.proxyNew f r w ∈ (run env cl cframe sframe).1 →
      r = Pipe.stdout ∧ w = Pipe.stdin) ∧
    (env.stdinPipe = none → env.stdoutPipe = none → env.start = none →
      Event.procStart ∈ (run env cl cframe sframe).1 ∧
        Event.proxyNew sframe Pipe.stdout Pipe.stdin ∈ (run env cl cframe sframe).1) := by
  refine ⟨?_, ?_, ?_, ?_⟩
  · rw [run_cons env cl cframe sframe cmd rest h]
    rcases env.stdinPipe with _ | e1 <;> rcases env.stdoutPipe with _ | e2 <;>
      rcases env.start with _ | e3 <;>
      rcases env.listen (listenKind (address cl)) (address cl) with _ | e4 <;> rfl
  · intro n a hmem
    have := mem_run_cons env cl cframe sframe cmd rest h _ hmem
    simpa using this
  · intro f r w hmem
    have := mem_run_cons env cl cframe sframe cmd rest h _ hmem
    simp only [Event.proxyNew.injEq, false_or, reduceCtorEq, false_and, or_false] at this
    exact ⟨this.1.2.1, this.1.2.2⟩
  · intro h1 h2 h3
    rw [run_cons env cl cframe sframe cmd rest h, h1, h2, h3]
    rcases env.listen (listenKind (address cl)) (address cl) with _ | e <;> simp

theorem run_launches_command_witness :
    (run sampleEnv sampleCommandLine 0 0).1.head? = some (.commandContext "cat" ["-u"]) ∧
    (∀ n a, Event.commandContext n a ∈ (run sampleEnv sampleCommandLine 0 0).1 →
      n = "cat" ∧ a = ["-u"]) ∧
    (∀ f r w, Event.proxyNew f r w ∈ (run sampleEnv sampleCommandLine 0 0).1 →
      r = Pipe.stdout ∧ w = Pipe.stdin) ∧
    (sampleEnv.stdinPipe = none → sampleEnv.stdoutPipe = none → sampleEnv.start = none →
      Event.procStart ∈ (run sampleEnv sampleCommandLine 0 0).1 ∧
        Event.proxyNew 0 Pipe.stdout Pipe.stdin ∈ (run sampleEnv sampleCommandLine 0 0).1) :=
  run_launches_command sampleEnv sampleCommandLine 0 0 "cat" ["-u"] rfl

/-- C5: called with a command, `run` returns a non-nil error exactly when the
stdin pipe, the stdout pipe, the start of the subprocess or the opening of the
listener fails; when a pipe or the start fails the trace holds no `net.Listen`
and no accept loop; and when all four succeed `run` returns nil and its trace
ends with the accept loop followed by the deferred calls. -/
theorem run_error_iff_setup_fails {F : Type} (env : Env) (cl : CommandLine)
    (cframe sframe : F) (h : cl.positional ≠ []) :
    ((∃ e, (run env cl cframe sframe).2 = .returned (some e)) ↔
      (env.stdinPipe ≠ none ∨ env.stdoutPipe ≠ none ∨ env.start ≠ none ∨
        env.listen (listenKind (address cl)) (address cl) ≠ none)) ∧
    ((env.stdinPipe ≠ none ∨ env.stdoutPipe ≠ none ∨ env.start ≠ none) →
      ∀ ev ∈ (run env cl cframe sframe).1,
        (∀ k a, ev ≠ .netListen k a) ∧ (∀ f n b, ev ≠ .serverLoop f n b)) ∧
    ((env.stdinPipe = none ∧ env.stdoutPipe = none ∧ env.start = none ∧
        env.listen (listenKind (address cl)) (address cl) = none) →
      (run env cl cframe sframe).2 = .returned none ∧
        ∃ pre, (run env cl cframe sframe).1 =
          pre ++ [.serverLoop cframe concurrency true, .pcClose, .cancel] ∧
          Event.netListen (listenKind (address cl)) (address cl) ∈ pre) := by
  rcases hq : cl.positional with _ | ⟨cmd, rest⟩
  · exact absurd hq h
  refine ⟨?_, ?_, ?_⟩
  · rw [run_cons env cl cframe sframe cmd rest hq]
    rcases env.stdinPipe with _ | e1 <;> rcases env.stdoutPipe with _ | e2 <;>
      rcases env.start with _ | e3 <;>
      rcases env.listen (listenKind (address cl)) (address cl) with _ | e4 <;> simp
  · intro hfail ev hev
    have hm := mem_run_cons env cl cframe sframe cmd rest hq ev hev
    have hnot : ¬ (env.stdinPipe = none ∧ env.stdoutPipe = none ∧ env.start = none) := by
      rintro ⟨h1, h2, h3⟩
      rcases hfail with hf | hf | hf
      · exact hf h1
      · exact hf h2
      · exact hf h3
    rcases hm with hm | hm | hm | hm | hm | hm | hm | hm | hm
    · subst hm; simp
    · subst hm; simp
    · subst hm; simp
    · subst hm; simp
    · exact absurd hm.2 hnot
    · exact absurd hm.2 hnot
    · exact absurd ⟨hm.2.1, hm.2.2.1, hm.2.2.2.1⟩ hnot
    · subst hm; simp
    · subst hm; simp
  · rintro ⟨h1, h2, h3, h4⟩
    rw [run_cons env cl cframe sframe cmd rest hq, h1, h2, h3, h4]
    refine ⟨rfl, [.commandContext cmd rest, .stdinPipe, .stdoutPipe, .procStart,
      .proxyNew sframe Pipe.stdout Pipe.stdin,
      .netListen (listenKind (address cl)) (address cl)], rfl, ?_⟩
    simp

theorem run_error_iff_setup_fails_witness :
    sampleCommandLine.positional ≠ [] ∧
      (run sampleEnv sampleCommandLine 0 0).2 = .returned none ∧
      (∃ e, (run { sampleEnv with start := some "exec: not found" }
        sampleCommandLine 0 0).2 = .returned (some e)) :=
  ⟨by decide,
    ((run_error_iff_setup_fails sampleEnv sampleCommandLine 0 0 (by decide)).2.2
      ⟨rfl, rfl, rfl, rfl⟩).1,
    (run_error_iff_setup_fails { sampleEnv with start := some "exec: not found" }
      sampleCommandLine 0 0 (by decide)).1.2 (Or.inr (Or.inr (Or.inl (by simp))))⟩

/-- An event of `main` that belongs to `run` occurs only after both framings
resolved, and is an event of `run` called with them. -/
theorem mem_main_of_run {F : Type} (lookup : String → Option F) (env : Env)
    (cl : CommandLine) (ev : Event F) (hev : ev ∈ (main lookup env cl).1)
    (h1 : ev ≠ .newLogger) (h2 : ∀ n, ev ≠ .framingLookup n) (h3 : ev ≠ .signalNotify)
    (h4 : ∀ c s, ev ≠ .enterRun c s) :
    ∃ c s, lookup (clientFraming cl) = some c ∧ lookup (serverFraming cl) = some s ∧
      cl.positional ≠ [] ∧ ev ∈ (run env cl c s).1 := by
  by_cases hp : cl.positional = []
  · rw [main_no_command lookup env cl hp] at hev
    simp at hev
  by_cases ha : address cl = ""
  · rw [main_no_address lookup env cl hp ha] at hev
    simp at hev
  rcases hc : lookup (clientFraming cl) with _ | c
  · rw [main_unknown_cf lookup env cl hp ha hc] at hev
    simp only [List.mem_append, List.mem_singleton] at hev
    rcases hev with h | h
    · exact absurd (mem_verboseTrace cl ev h) h1
    · exact absurd h (h2 _)
  rcases hs : lookup (serverFraming cl) with _ | s
  · rw [main_unknown_sf lookup env cl hp ha c hc hs] at hev
    simp only [List.mem_append, List.mem_cons, List.mem_singleton, List.mem_nil_iff,
      or_false] at hev
    rcases hev with h | h | h
    · exact absurd (mem_verboseTrace cl ev h) h1
    · exact absurd h (h2 _)
    · exact absurd h (h2 _)
  · rw [main_trace_run lookup env cl hp ha c s hc hs] at hev
    simp only [List.mem_append, List.mem_cons, List.mem_singleton, List.mem_nil_iff,
      or_false] at hev
    rcases hev with (h | h | h | h | h) | h
    · exact absurd (mem_verboseTrace cl ev h) h1
    · exact absurd h (h2 _)
    · exact absurd h (h2 _)
    · exact absurd h h3
    · exact absurd h (h4 _ _)
    · exact ⟨c, s, rfl, rfl, hp, h⟩

/-- The backend channel of `main` is framed by the framing named by -sf. -/
theorem main_proxyNew_framing {F : Type} (lookup : String → Option F) (env : Env)
    (cl : CommandLine) (f : F) (r w : Pipe)
    (hev : Event.proxyNew f r w ∈ (main lookup env cl).1) :
    lookup (serverFraming cl) = some f := by
  obtain ⟨c, s, -, hs, hp, hmem⟩ := mem_main_of_run lookup env cl _ hev
    (by simp) (by simp) (by simp) (by simp)
  rcases hq : cl.positional with _ | ⟨cmd, rest⟩
  · exact absurd hq hp
  · have := mem_run_cons env cl c s cmd rest hq _ hmem
    simp only [Event.proxyNew.injEq, false_or, reduceCtorEq, false_and, or_false] at this
    rw [hs, this.1.1]

/-- The accept loop of `main` frames connections by the framing named by -cf. -/
theorem main_serverLoop_framing {F : Type} (lookup : String → Option F) (env : Env)
    (cl : CommandLine) (f : F) (n : Nat) (b : Bool)
    (hev : Event.serverLoop f n b ∈ (main lookup env cl).1) :
    lookup (clientFraming cl) = some f := by
  obtain ⟨c, s, hc, -, hp, hmem⟩ := mem_main_of_run lookup env cl _ hev
    (by simp) (by simp) (by simp) (by simp)
  rcases hq : cl.positional with _ | ⟨cmd, rest⟩
  · exact absurd hq hp
  · have := mem_run_cons env cl c s cmd rest hq _ hmem
    simp only [Event.serverLoop.injEq, false_or, reduceCtorEq, false_and, or_false] at this
    rw [hc, this.1.1]

/-- C9: in every run of `main` the backend channel is built with the framing
registered under the name given by -sf ("raw" when the flag is absent) and the
accept loop is given the framing registered under the name given by -cf ("raw"
when absent); so two runs that differ only in -cf build their backend channels
with the same framing and two runs that differ only in -sf frame client
connections the same; and when both names resolve and setup succeeds both
framings are indeed applied. -/
theorem framings_chosen_independently {F : Type} (lookup : String → Option F)
    (env : Env) (cl : CommandLine) :
    (∀ f r w, Event.proxyNew f r w ∈ (main lookup env cl).1 →
      lookup (cl.sfFlag.getD "raw") = some f) ∧
    (∀ f n b, Event.serverLoop f n b ∈ (main lookup env cl).1 →
      lookup (cl.cfFlag.getD "raw") = some f) ∧
    (∀ name f r w, cl.sfFlag = some name →
      Event.proxyNew f r w ∈ (main lookup env cl).1 → lookup name = some f) ∧
    (∀ name f n b, cl.cfFlag = some name →
      Event.serverLoop f n b ∈ (main lookup env cl).1 → lookup name = some f) ∧
    (∀ f r w, cl.sfFlag = none →
      Event.proxyNew f r w ∈ (main lookup env cl).1 → lookup "raw" = some f) ∧
    (∀ f n b, cl.cfFlag = none →
      Event.serverLoop f n b ∈ (main lookup env cl).1 → lookup "raw" = some f) ∧
    (∀ cf f f' r w r' w', Event.proxyNew f r w ∈ (main lookup env cl).1 →
      Event.proxyNew f' r' w' ∈ (main lookup env { cl with cfFlag := cf }).1 → f = f') ∧
    (∀ sf f f' n b n' b', Event.serverLoop f n b ∈ (main lookup env cl).1 →
      Event.serverLoop f' n' b' ∈ (main lookup env { cl with sfFlag := sf }).1 → f = f') ∧
    clientFraming cl = cl.cfFlag.getD "raw" ∧
    serverFraming cl = cl.sfFlag.getD "raw" ∧
    (cl.cfFlag = none → clientFraming cl = "raw") ∧
    (cl.sfFlag = none → serverFraming cl = "raw") ∧
    (∀ c s, cl.positional ≠ [] → address cl ≠ "" →
      lookup (cl.cfFlag.getD "raw") = some c → lookup (cl.sfFlag.getD "raw") = some s →
      env.stdinPipe = none → env.stdoutPipe = none → env.start = none →
      env.listen (listenKind (address cl)) (address cl) = none →
      Event.proxyNew s Pipe.stdout Pipe.stdin ∈ (main lookup env cl).1 ∧
        Event.serverLoop c concurrency true ∈ (main lookup env cl).1 ∧
        (∀ f r w, Event.proxyNew f r w ∈ (main lookup env cl).1 → f = s) ∧
        (∀ f n b, Event.serverLoop f n b ∈ (main lookup env cl).1 → f = c)) := by
  have hsf : ∀ f r w, Event.proxyNew f r w ∈ (main lookup env cl).1 →
      lookup (cl.sfFlag.getD "raw") = some f :=
    fun f r w h => main_proxyNew_framing lookup env cl f r w h
  have hcf : ∀ f n b, Event.serverLoop f n b ∈ (main lookup env cl).1 →
      lookup (cl.cfFlag.getD "raw") = some f :=
    fun f n b h => main_serverLoop_framing lookup env cl f n b h
  refine ⟨hsf, hcf, ?_, ?_, ?_, ?_, ?_, ?_, rfl, rfl, ?_, ?_, ?_⟩
  · intro name f r w hn h
    have := hsf f r w h
    rwa [hn] at this
  · intro name f n b hn h
    have := hcf f n b h
    rwa [hn] at this
  · intro f r w hn h
    have := hsf f r w h
    rwa [hn] at this
  · intro f n b hn h
    have := hcf f n b h
    rwa [hn] at this
  · intro cf f f' r w r' w' h h'
    have e := main_proxyNew_framing lookup env cl f r w h
    have e' := main_proxyNew_framing lookup env _ f' r' w' h'
    have : serverFraming { cl with cfFlag := cf } = serverFraming cl := rfl
    rw [this, e] at e'
    exact Option.some.inj e'
  · intro sf f f' n b n' b' h h'
    have e := main_serverLoop_framing lookup env cl f n b h
    have e' := main_serverLoop_framing lookup env _ f' n' b' h'
    have : clientFraming { cl with sfFlag := sf } = clientFraming cl := rfl
    rw [this, e] at e'
    exact Option.some.inj e'
  · intro h
    simp [clientFraming, h]
  · intro h
    simp [serverFraming, h]
  · intro c s hp ha hc hs h1 h2 h3 h4
    refine ⟨?_, ?_, ?_, ?_⟩
    · rcases hq : cl.positional with _ | ⟨cmd, rest⟩
      · exact absurd hq hp
      · rw [main_trace_run lookup env cl hp ha c s hc hs,
          run_cons env cl c s cmd rest hq, h1, h2, h3, h4]
        simp
    · rcases hq : cl.positional with _ | ⟨cmd, rest⟩
      · exact absurd hq hp
      · rw [main_trace_run lookup env cl hp ha c s hc hs,
          run_cons env cl c s cmd rest hq, h1, h2, h3, h4]
        simp
    · intro f r w h
      have := hsf f r w h
      rw [hs] at this
      exact (Option.some.inj this).symm
    · intro f n b h
      have := hcf f n b h
      rw [hc] at this
      exact (Option.some.inj this).symm

theorem framings_chosen_independently_witness :
    (main sampleLookup sampleEnv { sampleCommandLine with sfFlag := some "line" }).1 =
        [.framingLookup "raw", .framingLookup "line", .signalNotify, .enterRun 0 1,
          .commandContext "cat" ["-u"], .stdinPipe, .stdoutPipe, .procStart,
          .proxyNew 1 Pipe.stdout Pipe.stdin, .netListen "tcp" ":8080",
          .serverLoop 0 8 true, .pcClose, .cancel] ∧
      (main sampleLookup sampleEnv { sampleCommandLine with cfFlag := some "line" }).1 =
        [.framingLookup "line", .framingLookup "raw", .signalNotify, .enterRun 1 0,
          .commandContext "cat" ["-u"], .stdinPipe, .stdoutPipe, .procStart,
          .proxyNew 0 Pipe.stdout Pipe.stdin, .netListen "tcp" ":8080",
          .serverLoop 1 8 true, .pcClose, .cancel] ∧
      sampleLookup "line" = some 1 ∧
      sampleLookup "line" = some 1 ∧
      sampleLookup "raw" = some 0 ∧
      (0 : Nat) = 0 ∧
      (Event.proxyNew 1 Pipe.stdout Pipe.stdin ∈
          (main sampleLookup sampleEnv
            { sampleCommandLine with sfFlag := some "line" }).1 ∧
        Event.serverLoop 0 concurrency true ∈
          (main sampleLookup sampleEnv
            { sampleCommandLine with sfFlag := some "line" }).1 ∧
        (∀ f r w, Event.proxyNew f r w ∈
          (main sampleLookup sampleEnv
            { sampleCommandLine with sfFlag := some "line" }).1 → f = 1) ∧
        (∀ f n b, Event.serverLoop f n b ∈
          (main sampleLookup sampleEnv
            { sampleCommandLine with sfFlag := some "line" }).1 → f = 0)) :=
  ⟨by decide, by decide,
    (framings_chosen_independently sampleLookup sampleEnv
      { sampleCommandLine with sfFlag := some "line" }).2.2.1
      "line" 1 Pipe.stdout Pipe.stdin rfl (by decide),
    (framings_chosen_independently sampleLookup sampleEnv
      { sampleCommandLine with cfFlag := some "line" }).2.2.2.1
      "line" 1 8 true rfl (by decide),
    (framings_chosen_independently sampleLookup sampleEnv sampleCommandLine).2.2.2.2.1
      0 Pipe.stdout Pipe.stdin rfl (by decide),
    (framings_chosen_independently sampleLookup sampleEnv sampleCommandLine).2.2.2.2.2.2.1
      (some "line") 0 0 Pipe.stdout Pipe.stdin Pipe.stdout Pipe.stdin
      (by decide) (by decide),
    (framings_chosen_independently sampleLookup sampleEnv
      { sampleCommandLine with sfFlag := some "line" }).2.2.2.2.2.2.2.2.2.2.2.2
      0 1 (by decide) (by decide) (by decide) (by decide) rfl rfl rfl rfl⟩

/-! ## Lifecycle -/

/-- A step from a state whose listener is closed is neither an accept nor a
listen, and leaves the listener closed and the accepted count unchanged. -/
theorem lifeStep_closed (s s' : Life) (e : LifeEvent) (hc : s.listener = .closed)
    (h : lifeStep s e = some s') :
    s'.listener = .closed ∧ s'.accepted = s.accepted ∧ e ≠ .accept ∧ e ≠ .listen := by
  cases e <;> simp [lifeStep, hc] at h <;> obtain ⟨-, h⟩ := h <;> subst h <;> simp [hc]

/-- A step never revokes a cancellation. -/
theorem lifeStep_cancelled (s s' : Life) (e : LifeEvent)
    (h : lifeStep s e = some s') :
    (s.runCancelled = true → s'.runCancelled = true) ∧
      (s.mainCancelled = true → s'.mainCancelled = true) := by
  cases e <;> simp only [lifeStep] at h <;> split at h <;>
    simp at h <;> subst h <;> simp

theorem lifeRun_closed (evs : List LifeEvent) (s s' : Life)
    (hc : s.listener = .closed) (h : lifeRun s evs = some s') :
    s'.listener = .closed ∧ s'.accepted = s.accepted ∧
      LifeEvent.accept ∉ evs ∧ LifeEvent.listen ∉ evs := by
  induction evs generalizing s with
  | nil =>
    simp only [lifeRun, Option.some.injEq] at h
    subst h
    simp [hc]
  | cons e es ih =>
    simp only [lifeRun] at h
    rcases hs : lifeStep s e with _ | s1
    · simp [hs] at h
    · simp only [hs] at h
      obtain ⟨h1, h2, h3, h4⟩ := lifeStep_closed s s1 e hc hs
      obtain ⟨k1, k2, k3, k4⟩ := ih s1 h1 h
      refine ⟨k1, k2.trans h2, ?_, ?_⟩
      · simp only [List.mem_cons, not_or]
        exact ⟨fun h => h3 h.symm, k3⟩
      · simp only [List.mem_cons, not_or]
        exact ⟨fun h => h4 h.symm, k4⟩

theorem lifeRun_cancelled (evs : List LifeEvent) (s s' : Life)
    (h : lifeRun s evs = some s') (hc : s.runCancelled = true) :
    s'.runCancelled = true := by
  induction evs generalizing s with
  | nil =>
    simp only [lifeRun, Option.some.injEq] at h
    subst h
    exact hc
  | cons e es ih =>
    simp only [lifeRun] at h
    rcases hs : lifeStep s e with _ | s1
    · simp [hs] at h
    · simp only [hs] at h
      exact ih s1 h ((lifeStep_cancelled s s1 e hs).1 hc)

theorem lifeRun_append (evs evs' : List LifeEvent) (s s' : Life)
    (h : lifeRun s (evs ++ evs') = some s') :
    ∃ s1, lifeRun s evs = some s1 ∧ lifeRun s1 evs' = some s' := by
  induction evs generalizing s with
  | nil => exact ⟨s, rfl, h⟩
  | cons e es ih =>
    simp only [List.cons_append, lifeRun] at h ⊢
    rcases hs : lifeStep s e with _ | s1
    · simp [hs] at h
    · simp only [hs] at h ⊢
      exact ih s1 h

/-- C6, refuted as stated: with the listener open, an interrupt (or the exit
of the subprocess) cancels the context of `run`, and the accept loop can still
take a connection before the closing goroutine has run. -/
theorem accept_after_trigger_before_close :
    lifeRun lifeInit [.procStart, .listen, .interrupt] =
        some { mainCancelled := true, runCancelled := true, procStarted := true,
               procExited := false, listener := .opened, accepted := 0,
               runReturned := false } ∧
      lifeRun lifeInit [.procStart, .listen, .interrupt, .accept] =
        some { mainCancelled := true, runCancelled := true, procStarted := true,
               procExited := false, listener := .opened, accepted := 1,
               runReturned := false } ∧
      lifeRun lifeInit [.procStart, .listen, .procExit, .accept] =
        some { mainCancelled := false, runCancelled := true, procStarted := true,
               procExited := true, listener := .opened, accepted := 1,
               runReturned := false } := by
  decide

/-- C6, amended: an interrupt cancels the context of `main` and with it the
context of `run`, to which the subprocess is bound; the exit of the subprocess
cancels the context of `run`; a cancellation is never revoked; once the context
of `run` is cancelled and the listener is open, the closing goroutine can run
and closes the listener; and from the moment the listener is closed it stays
closed, is never opened again and no connection is accepted, in particular
after every closer step of every execution. -/
theorem shutdown_closes_listener_for_good (s : Life) :
    (∀ s', lifeStep s .interrupt = some s' →
      s'.mainCancelled = true ∧ s'.runCancelled = true) ∧
    (∀ s', lifeStep s .procExit = some s' → s'.runCancelled = true) ∧
    (∀ evs s', lifeRun s evs = some s' → s.runCancelled = true →
      s'.runCancelled = true) ∧
    (s.runCancelled = true → s.listener = .opened → s.runReturned = false →
      lifeStep s .closer = some { s with listener := .closed }) ∧
    (∀ evs s', lifeRun s evs = some s' → s.listener = .closed →
      s'.listener = .closed ∧ s'.accepted = s.accepted ∧
        LifeEvent.accept ∉ evs ∧ LifeEvent.listen ∉ evs) ∧
    (∀ pre post s', lifeRun s (pre ++ LifeEvent.closer :: post) = some s' →
      LifeEvent.accept ∉ post ∧ LifeEvent.listen ∉ post ∧ s'.listener = .closed) := by
  refine ⟨?_, ?_, ?_, ?_, ?_, ?_⟩
  · intro s' h
    simp only [lifeStep] at h
    split at h <;> simp at h
    subst h
    simp
  · intro s' h
    simp only [lifeStep] at h
    split at h <;> simp at h
    subst h
    simp
  · intro evs s' h hc
    exact lifeRun_cancelled evs s s' h hc
  · intro h1 h2 h3
    simp [lifeStep, h1, h2, h3]
  · intro evs s' h hc
    exact lifeRun_closed evs s s' hc h
  · intro pre post s' h
    obtain ⟨s1, -, h2⟩ := lifeRun_append pre _ s s' h
    simp only [lifeRun] at h2
    rcases hs : lifeStep s1 .closer with _ | s2
    · simp [hs] at h2
    · simp only [hs] at h2
      have hcl : s2.listener = .closed := by
        simp only [lifeStep] at hs
        split at hs <;> simp at hs
        subst hs
        rfl
      obtain ⟨k1, -, k3, k4⟩ := lifeRun_closed post s2 s' hcl h2
      exact ⟨k3, k4, k1⟩

theorem shutdown_closes_listener_for_good_witness :
    (LifeEvent.accept ∉ [LifeEvent.loopEnd] ∧ LifeEvent.listen ∉ [LifeEvent.loopEnd] ∧
      ({ mainCancelled := true, runCancelled := true, procStarted := true,
         procExited := false, listener := .closed, accepted := 1,
         runReturned := true } : Life).listener = .closed) :=
  (shutdown_closes_listener_for_good lifeInit).2.2.2.2.2
    [.procStart, .listen, .accept, .interrupt] [.loopEnd] _ (by decide)

/-! ## The multiplexer: invariant -/

theorem muxInv_init (limit : Nat) : MuxInv (muxInit limit) [] where
  table_sent := by simp [muxInit]
  sent_lt := by simp
  sent_unique := by simp
  delivered_sent := by simp
  nodup := by simp [muxInit]
  bounded := by simp [muxInit]

/-- Removing entries keeps the invariant. -/
theorem muxInv_filter (m : Mux) (outs : List MuxOutput) (q : PendingCall → Bool)
    (h : MuxInv m outs) : MuxInv { m with table := m.table.filter q } outs where
  table_sent := fun p hp => h.table_sent p (List.mem_of_mem_filter hp)
  sent_lt := h.sent_lt
  sent_unique := h.sent_unique
  delivered_sent := h.delivered_sent
  nodup := h.nodup.sublist (List.Sublist.map _ (List.filter_sublist _))
  bounded := le_trans (List.length_filter_le _ _) h.bounded

/-- Emitting outputs that are neither sends nor deliveries keeps the
invariant. -/
theorem muxInv_append_other (m : Mux) (outs o : List MuxOutput) (h : MuxInv m outs)
    (hs : ∀ b s c, MuxOutput.sent b s c ∉ o)
    (hd : ∀ s c b, MuxOutput.delivered s c b ∉ o) : MuxInv m (outs ++ o) where
  table_sent := fun p hp => List.mem_append_left _ (h.table_sent p hp)
  sent_lt := fun b s c hm => by
    rcases List.mem_append.1 hm with hm | hm
    · exact h.sent_lt b s c hm
    · exact absurd hm (hs b s c)
  sent_unique := fun b s c s' c' hm hm' => by
    rcases List.mem_append.1 hm with hm | hm
    · rcases List.mem_append.1 hm' with hm' | hm'
      · exact h.sent_unique b s c s' c' hm hm'
      · exact absurd hm' (hs b s' c')
    · exact absurd hm (hs b s c)
  delivered_sent := fun s c b hm => by
    rcases List.mem_append.1 hm with hm | hm
    · exact List.mem_append_left _ (h.delivered_sent s c b hm)
    · exact absurd hm (hd s c b)
  nodup := h.nodup
  bounded := h.bounded

/-- Admitting a request keeps the invariant. -/
theorem muxInv_allocate (m : Mux) (outs : List MuxOutput) (s c : Nat)
    (h : MuxInv m outs) (hroom : ¬ m.limit ≤ m.table.length) :
    MuxInv (allocate m s c).2 (outs ++ [.sent (allocate m s c).1 s c]) where
  table_sent := fun p hp => by
    simp only [allocate, List.mem_cons] at hp
    rcases hp with hp | hp
    · subst hp
      simp [allocate]
    · exact List.mem_append_left _ (h.table_sent p hp)
  sent_lt := fun b s' c' hm => by
    simp only [allocate, List.mem_append, List.mem_singleton, MuxOutput.sent.injEq] at hm ⊢
    rcases hm with hm | hm
    · exact Nat.lt_succ_of_lt (h.sent_lt b s' c' hm)
    · rw [hm.1]
      exact Nat.lt_succ_self _
  sent_unique := fun b s1 c1 s2 c2 hm hm' => by
    simp only [allocate, List.mem_append, List.mem_singleton, MuxOutput.sent.injEq] at hm hm'
    rcases hm with hm | hm
    · rcases hm' with hm' | hm'
      · exact h.sent_unique b s1 c1 s2 c2 hm hm'
      · have := h.sent_lt b s1 c1 hm
        omega
    · rcases hm' with hm' | hm'
      · have := h.sent_lt b s2 c2 hm'
        omega
      · exact ⟨hm'.2.1.trans hm.2.1.symm, hm'.2.2.trans hm.2.2.symm⟩
  delivered_sent := fun s' c' b hm => by
    simp only [List.mem_append, List.mem_singleton, reduceCtorEq, or_false] at hm
    exact List.mem_append_left _ (h.delivered_sent s' c' b hm)
  nodup := by
    simp only [allocate, List.map_cons, List.nodup_cons, List.mem_map, not_exists, not_and]
    refine ⟨fun p hp heq => ?_, h.nodup⟩
    have := h.sent_lt _ _ _ (h.table_sent p hp)
    omega
  bounded := by
    simp only [allocate, List.length_cons]
    omega

/-- Resolving a response keeps the invariant. -/
theorem muxInv_resolve (m : Mux) (outs : List MuxOutput) (b : Nat) (p : PendingCall)
    (h : MuxInv m outs) (hp : (resolve m b).1 = some p) :
    MuxInv (resolve m b).2 (outs ++ [.delivered p.session p.clientID b]) := by
  have hmem : p ∈ m.table := List.mem_of_find?_eq_some hp
  have hb : p.backendID = b := by
    have := List.find?_some hp
    simpa using this
  have hf := muxInv_filter m outs (fun p => p.backendID != b) h
  exact
    { table_sent := fun q hq => List.mem_append_left _ (hf.table_sent q hq)
      sent_lt := fun b' s c hm => by
        simp only [List.mem_append, List.mem_singleton, reduceCtorEq, or_false] at hm
        exact hf.sent_lt b' s c hm
      sent_unique := fun b' s c s' c' hm hm' => by
        simp only [List.mem_append, List.mem_singleton, reduceCtorEq, or_false] at hm hm'
        exact hf.sent_unique b' s c s' c' hm hm'
      delivered_sent := fun s c b' hm => by
        simp only [List.mem_append, List.mem_singleton, MuxOutput.delivered.injEq] at hm
        rcases hm with hm | hm
        · exact List.mem_append_left _ (h.delivered_sent s c b' hm)
        · obtain ⟨rfl, rfl, rfl⟩ := hm
          have := h.table_sent p hmem
          rw [hb] at this
          exact List.mem_append_left _ this
      nodup := hf.nodup
      bounded := hf.bounded }

/-- One step keeps the invariant and the limit. -/
theorem muxInv_step (m m' : Mux) (outs o : List MuxOutput) (e : MuxEvent)
    (h : MuxInv m outs) (hs : muxStep m e = some (m', o)) :
    MuxInv m' (outs ++ o) ∧ m'.limit = m.limit := by
  cases e with
  | request s c =>
    simp only [muxStep] at hs
    split at hs
    · simp only [Option.some.injEq, Prod.mk.injEq] at hs
      obtain ⟨rfl, rfl⟩ := hs
      exact ⟨muxInv_append_other m outs _ h (by simp) (by simp), rfl⟩
    · split at hs
      · simp only [Option.some.injEq, Prod.mk.injEq] at hs
        obtain ⟨rfl, rfl⟩ := hs
        exact ⟨muxInv_append_other m outs _ h (by simp) (by simp), rfl⟩
      · split at hs
        · simp at hs
        · rename_i hroom
          simp only [Option.some.injEq, Prod.mk.injEq] at hs
          obtain ⟨rfl, rfl⟩ := hs
          exact ⟨muxInv_allocate m outs s c h hroom, rfl⟩
  | notify s =>
    simp only [muxStep] at hs
    split at hs <;> simp only [Option.some.injEq, Prod.mk.injEq] at hs <;>
      obtain ⟨rfl, rfl⟩ := hs <;>
      exact ⟨muxInv_append_other m outs _ h (by simp) (by simp), rfl⟩
  | response b =>
    simp only [muxStep] at hs
    split at hs
    · simp at hs
    · split at hs
      · rename_i p hp
        simp only [Option.some.injEq, Prod.mk.injEq] at hs
        obtain ⟨rfl, rfl⟩ := hs
        exact ⟨muxInv_resolve m outs b p h hp, rfl⟩
      · simp only [Option.some.injEq, Prod.mk.injEq] at hs
        obtain ⟨rfl, rfl⟩ := hs
        exact ⟨muxInv_append_other _ outs _
          (muxInv_filter m outs (fun p => p.backendID != b) h) (by simp) (by simp), rfl⟩
  | disconnect s =>
    simp only [muxStep, Option.some.injEq, Prod.mk.injEq] at hs
    obtain ⟨rfl, rfl⟩ := hs
    rw [List.append_nil]
    exact ⟨muxInv_filter m outs (fun p => p.session != s) h, rfl⟩
  | backendDown =>
    simp only [muxStep] at hs
    split at hs
    · simp at hs
    · simp only [Option.some.injEq, Prod.mk.injEq] at hs
      obtain ⟨rfl, rfl⟩ := hs
      refine ⟨muxInv_append_other _ outs _ ?_ (by simp) (by simp), rfl⟩
      have := muxInv_filter m outs (fun _ => false) h
      simp only [List.filter_false] at this
      exact
        { table_sent := by simp
          sent_lt := h.sent_lt
          sent_unique := h.sent_unique
          delivered_sent := h.delivered_sent
          nodup := by simp
          bounded := by simp }

/-- A run keeps the invariant and the limit. -/
theorem muxInv_run (evs : List MuxEvent) (m m' : Mux) (pre outs : List MuxOutput)
    (h : MuxInv m pre) (hr : muxRun m evs = some (m', outs)) :
    MuxInv m' (pre ++ outs) ∧ m'.limit = m.limit := by
  induction evs generalizing m pre outs with
  | nil =>
    simp only [muxRun, Option.some.injEq, Prod.mk.injEq] at hr
    obtain ⟨rfl, rfl⟩ := hr
    simpa using h
  | cons e es ih =>
    simp only [muxRun] at hr
    rcases hs : muxStep m e with _ | ⟨m1, o⟩
    · simp [hs] at hr
    · simp only [hs] at hr
      rcases hr1 : muxRun m1 es with _ | ⟨m2, os⟩
      · simp [hr1] at hr
      · simp only [hr1, Option.some.injEq, Prod.mk.injEq] at hr
        obtain ⟨rfl, rfl⟩ := hr
        obtain ⟨i1, l1⟩ := muxInv_step m m1 pre o e h hs
        obtain ⟨i2, l2⟩ := ih m1 (pre ++ o) os i1 hr1
        rw [List.append_assoc] at i2
        exact ⟨i2, l2.trans l1⟩

/-- A request is sent to the backend only for a request event of that session
with that client-local id. -/
theorem sent_of_request (evs : List MuxEvent) (m m' : Mux) (outs : List MuxOutput)
    (hr : muxRun m evs = some (m', outs)) (b s c : Nat)
    (hm : MuxOutput.sent b s c ∈ outs) : MuxEvent.request s c ∈ evs := by
  induction evs generalizing m outs with
  | nil =>
    simp only [muxRun, Option.some.injEq, Prod.mk.injEq] at hr
    obtain ⟨-, rfl⟩ := hr
    simp at hm
  | cons e es ih =>
    simp only [muxRun] at hr
    rcases hs : muxStep m e with _ | ⟨m1, o⟩
    · simp [hs] at hr
    · simp only [hs] at hr
      rcases hr1 : muxRun m1 es with _ | ⟨m2, os⟩
      · simp [hr1] at hr
      · simp only [hr1, Option.some.injEq, Prod.mk.injEq] at hr
        obtain ⟨rfl, rfl⟩ := hr
        rcases List.mem_append.1 hm with hm | hm
        · have : e = .request s c := by
            cases e with
            | request s' c' =>
              simp only [muxStep] at hs
              split at hs
              · simp only [Option.some.injEq, Prod.mk.injEq] at hs
                obtain ⟨-, rfl⟩ := hs
                simp at hm
              · split at hs
                · simp only [Option.some.injEq, Prod.mk.injEq] at hs
                  obtain ⟨-, rfl⟩ := hs
                  simp at hm
                · split at hs
                  · simp at hs
                  · simp only [Option.some.injEq, Prod.mk.injEq] at hs
                    obtain ⟨-, rfl⟩ := hs
                    simp only [List.mem_singleton, MuxOutput.sent.injEq] at hm
                    rw [hm.2.1, hm.2.2]
            | notify s' =>
              simp only [muxStep] at hs
              split at hs <;> simp only [Option.some.injEq, Prod.mk.injEq] at hs <;>
                obtain ⟨-, rfl⟩ := hs <;> simp at hm
            | response b' =>
              simp only [muxStep] at hs
              split at hs
              · simp at hs
              · split at hs <;> simp only [Option.some.injEq, Prod.mk.injEq] at hs <;>
                  obtain ⟨-, rfl⟩ := hs <;> simp at hm
            | disconnect s' =>
              simp only [muxStep, Option.some.injEq, Prod.mk.injEq] at hs
              obtain ⟨-, rfl⟩ := hs
              simp at hm
            | backendDown =>
              simp only [muxStep] at hs
              split at hs
              · simp at hs
              · simp only [Option.some.injEq, Prod.mk.injEq] at hs
                obtain ⟨-, rfl⟩ := hs
                simp at hm
          rw [this]
          exact List.mem_cons_self _ _
        · exact List.mem_cons_of_mem _ (ih m1 os hr1 hm)

/-! ## Claims about the multiplexer -/

/-- C1: in every run of the multiplexer from its initial state, a response
delivered to session `s` under client-local id `c` in answer to backend id `b`
answers a request that session `s` issued with id `c` and that was sent to the
backend as `b`; no other session or client-local id was ever sent as `b`, and
no delivery for `b` goes anywhere else. -/
theorem responses_reach_issuing_session (limit : Nat) (evs : List MuxEvent) (m : Mux)
    (outs : List MuxOutput) (hr : muxRun (muxInit limit) evs = some (m, outs))
    (s c b : Nat) (hd : MuxOutput.delivered s c b ∈ outs) :
    MuxEvent.request s c ∈ evs ∧ MuxOutput.sent b s c ∈ outs ∧
      (∀ s' c', MuxOutput.sent b s' c' ∈ outs → s' = s ∧ c' = c) ∧
      (∀ s' c', MuxOutput.delivered s' c' b ∈ outs → s' = s ∧ c' = c) := by
  have hinv := (muxInv_run evs (muxInit limit) m [] outs (muxInv_init limit) hr).1
  rw [List.nil_append] at hinv
  have hs := hinv.delivered_sent s c b hd
  refine ⟨sent_of_request evs _ m outs hr b s c hs, hs, ?_, ?_⟩
  · intro s' c' h'
    exact hinv.sent_unique b s c s' c' hs h'
  · intro s' c' h'
    exact hinv.sent_unique b s c s' c' hs (hinv.delivered_sent s' c' b h')

theorem responses_reach_issuing_session_witness :
    MuxEvent.request 20 1 ∈
        [MuxEvent.request 10 1, .request 20 1, .response 1, .response 0] ∧
      MuxOutput.sent 1 20 1 ∈
        [MuxOutput.sent 0 10 1, .sent 1 20 1, .delivered 20 1 1, .delivered 10 1 0] ∧
      (∀ s' c', MuxOutput.sent 1 s' c' ∈
        [MuxOutput.sent 0 10 1, .sent 1 20 1, .delivered 20 1 1, .delivered 10 1 0] →
          s' = 20 ∧ c' = 1) ∧
      (∀ s' c', MuxOutput.delivered s' c' 1 ∈
        [MuxOutput.sent 0 10 1, .sent 1 20 1, .delivered 20 1 1, .delivered 10 1 0] →
          s' = 20 ∧ c' = 1) :=
  responses_reach_issuing_session 8
    [.request 10 1, .request 20 1, .response 1, .response 0]
    { limit := 8, counter := 2, table := [], alive := true }
    [.sent 0 10 1, .sent 1 20 1, .delivered 20 1 1, .delivered 10 1 0]
    (by decide) 20 1 1 (by decide)

/-- C2: in every state the multiplexer reaches, the backend ids of the pending
calls are pairwise distinct, all lie below the counter, and the id the next
allocation would hand out is not pending. -/
theorem pending_backend_ids_distinct (limit : Nat) (evs : List MuxEvent) (m : Mux)
    (outs : List MuxOutput) (hr : muxRun (muxInit limit) evs = some (m, outs)) :
    (m.table.map (fun p => p.backendID)).Nodup ∧
      (∀ p ∈ m.table, p.backendID < m.counter) ∧
      (∀ s c, (allocate m s c).1 ∉ m.table.map (fun p => p.backendID)) := by
  have hinv := (muxInv_run evs (muxInit limit) m [] outs (muxInv_init limit) hr).1
  have hlt : ∀ p ∈ m.table, p.backendID < m.counter := fun p hp =>
    hinv.sent_lt _ _ _ (hinv.table_sent p hp)
  refine ⟨hinv.nodup, hlt, ?_⟩
  intro s c hmem
  simp only [allocate, List.mem_map] at hmem
  obtain ⟨p, hp, heq⟩ := hmem
  have := hlt p hp
  omega

theorem pending_backend_ids_distinct_witness :
    (samplePending.table.map (fun p => p.backendID)).Nodup ∧
      (∀ p ∈ samplePending.table, p.backendID < samplePending.counter) ∧
      (∀ s c, (allocate samplePending s c).1 ∉
        samplePending.table.map (fun p => p.backendID)) :=
  pending_backend_ids_distinct 8 [.request 10 1, .request 20 1, .request 10 2]
    samplePending [.sent 0 10 1, .sent 1 20 1, .sent 2 10 2] (by decide)

end Jproxy
